import Mathlib

/-
Verification development for the DavePMEi Memory API.

The server (`server.py`) is shallowly embedded below:

* Python strings are Lean `String`s; the Python string operations the server
  uses (`strip`, slicing `[:n]`, `lower`, `startswith`) are modelled as
  total functions on the underlying character lists, matching Python's
  code-point semantics.
* Python floats are modelled by `PyFloat`: a rational number or one of the
  non-finite values `nan`, `inf`, `-inf`.  Python's `min`/`max` builtins are
  modelled including their behaviour on `nan` (all comparisons with `nan`
  are false, and `min(a, b)` keeps `a` unless `b < a`).
* The SQL table `memories` is a `List MemRec` in insertion order; `ORDER BY
  ts DESC` is modelled by a stable sort on `ts` descending, `LIMIT` by
  `List.take`, `WHERE` by `List.filter`.
* Fallible request handling returns a status code together with the
  resulting table; the handlers are pure functions of the request payload,
  the current clock value and the stored table.
* `utils/hash_identity.py` calls `hashlib.sha256` and
  `base64.urlsafe_b64encode`; both library functions are implemented here
  from their standard definitions (FIPS 180-4 / RFC 4648) on byte lists,
  with 32-bit machine arithmetic written as `Nat` arithmetic mod 2^32.
-/

namespace DavePMEi

/-! ### Python string primitives -/

/-- Python `str.strip()`: remove leading and trailing whitespace. -/
def pyStrip (s : String) : String :=
  ⟨((s.data.dropWhile Char.isWhitespace).reverse.dropWhile Char.isWhitespace).reverse⟩

/-- Python slicing `s[:n]`: the first `n` characters (code points). -/
def pySlice (s : String) (n : Nat) : String := ⟨s.data.take n⟩

/-- Python `str.lower()` (ASCII range, as used for header and seal values). -/
def pyLower (s : String) : String := ⟨s.data.map Char.toLower⟩

/-! ### PMEi constraints and sanitizers (server.py lines 41-60) -/

def GLYPH_MAX : Nat := 16

def SAFE_SEALS : List String := ["ok", "important", "critical", "lawful"]

/-- A Python float value: a finite number (modelled exactly as a rational,
since the clamping code only ever compares values) or a non-finite value. -/
inductive PyFloat where
  | num (q : ℚ)
  | nan
  | inf
  | ninf
deriving DecidableEq, Repr

/-- Python `<` on floats; every comparison involving `nan` is false. -/
def pyLt : PyFloat → PyFloat → Bool
  | .num p, .num q => decide (p < q)
  | .num _, .inf => true
  | .ninf, .num _ => true
  | .ninf, .inf => true
  | _, _ => false

/-- Python `min(a, b)`: keeps `a` unless `b < a`. -/
def pyMin (a b : PyFloat) : PyFloat := if pyLt b a then b else a

/-- Python `max(a, b)`: keeps `a` unless `a < b`. -/
def pyMax (a b : PyFloat) : PyFloat := if pyLt a b then b else a

/-- Model of `clamp_drift` (server.py lines 47-52).  The argument is the result of
Python's `float(x)` conversion: `none` when the conversion raised (the
input does not parse as a float), otherwise the converted value, which may
be non-finite (`float("nan")`, `float("inf")` parse successfully). -/
def clamp_drift (x : Option PyFloat) : PyFloat :=
  match x with
  | none => .num (mkRat 1 10)
  | some v => pyMax (.num 0) (pyMin v (.num (mkRat 3 10)))

/-- Model of `sanitize_glyph` (server.py lines 54-56): `g = (g or "🪞").strip()`
followed by `g[:GLYPH_MAX]`.  Note the `or`-default is applied to the raw
input, before stripping. -/
def sanitize_glyph (g : String) : String :=
  pySlice (pyStrip (if g = "" then "🪞" else g)) GLYPH_MAX

/-- Model of `sanitize_seal` (server.py lines 58-60). -/
def sanitize_seal (s : String) : String :=
  let t := pyLower (pyStrip (if s = "" then "lawful" else s))
  if t ∈ SAFE_SEALS then t else "lawful"

/-! ### The stored table (schema of `memories`, server.py lines 175-188) -/

/-- One row of the `memories` table (the `id` column is never selected and
is omitted).  `ts` is a BIGINT / INTEGER column, hence `Int`. -/
structure MemRec where
  user_id : String
  thread_id : String
  slide_id : String
  glyph_echo : String
  drift_score : PyFloat
  «seal» : String
  role : String
  content : String
  ts : Int
deriving DecidableEq, Repr

/-- The `ORDER BY ts DESC` comparison: `a` may come before `b` iff `b.ts ≤ a.ts`. -/
def tsGe (a b : MemRec) : Prop := b.ts ≤ a.ts

instance : DecidableRel tsGe := fun a b => inferInstanceAs (Decidable (b.ts ≤ a.ts))

instance : IsTotal MemRec tsGe := ⟨fun a b => le_total b.ts a.ts⟩

instance : IsTrans MemRec tsGe := ⟨fun _ _ _ h1 h2 => le_trans h2 h1⟩

/-- The `ORDER BY ts DESC` ordering (a stable sort; SQL leaves the order of equal
timestamps unspecified, and any fixed choice is a faithful model). -/
def sortByTsDesc (l : List MemRec) : List MemRec := List.insertionSort tsGe l

/-- Model of `DB.insert_memory` (server.py lines 203-224): appends one row. -/
def insert_memory (table : List MemRec) (r : MemRec) : List MemRec := table ++ [r]

/-- Model of `DB.select_latest_in_thread` (server.py lines 226-248):
`SELECT slide_id, ts FROM memories WHERE user_id=? AND thread_id=?
ORDER BY ts DESC LIMIT 1` (the whole row is kept in the model). -/
def select_latest_in_thread (table : List MemRec) (user_id thread_id : String) :
    Option MemRec :=
  (sortByTsDesc (table.filter fun r =>
    decide (r.user_id = user_id) && decide (r.thread_id = thread_id))).head?

/-- The filter dictionary passed to `DB.select_memories`; each field is a
query-string parameter, `none` when absent. -/
structure Filters where
  user_id : Option String := none
  thread_id : Option String := none
  slide_id : Option String := none
  «seal» : Option String := none
  role : Option String := none
deriving DecidableEq, Repr

/-- One equality clause of `select_memories`: the clause is added only when
the value is truthy (`if val:`), i.e. present and non-empty. -/
def matchesFilter : Option String → String → Bool
  | none, _ => true
  | some v, x => if v = "" then true else v == x

/-- The conjunction of the five optional equality clauses
(server.py lines 252-257). -/
def matchesFilters (f : Filters) (r : MemRec) : Bool :=
  matchesFilter f.user_id r.user_id && matchesFilter f.thread_id r.thread_id &&
  matchesFilter f.slide_id r.slide_id && matchesFilter f.seal r.seal &&
  matchesFilter f.role r.role

/-- The `ts < before_ts` clause (server.py lines 258-260).  The clause is
guarded by Python truthiness (`if before_ts:`), so both `None` and `0`
add no clause. -/
def applyBefore (before_ts : Option Int) (l : List MemRec) : List MemRec :=
  match before_ts with
  | some b => if b ≠ 0 then l.filter (fun r => decide (r.ts < b)) else l
  | none => l

/-- Model of `DB.select_memories` (server.py lines 250-282): WHERE conjunction,
`ORDER BY ts DESC`, `LIMIT limit`. -/
def select_memories (table : List MemRec) (f : Filters) (limit : Nat)
    (before_ts : Option Int) : List MemRec :=
  (sortByTsDesc (applyBefore before_ts (table.filter (matchesFilters f)))).take limit

/-! ### Slide-id pattern and allocator (server.py lines 44, 346-351) -/

def isDigits (l : List Char) : Bool := l.all Char.isDigit

/-- The pattern `SLIDE_RE = re.compile(r"^t-\d{3,6}$")` as a Boolean matcher. -/
def slideReMatch (s : String) : Bool :=
  match s.data with
  | 't' :: '-' :: rest =>
      decide (3 ≤ rest.length) && decide (rest.length ≤ 6) && isDigits rest
  | _ => false

/-- The spec's broader auto-generated-id format `^[tr]-\d{3,6}$`
(spec §3, "format `^[tr]-\d{3,6}$` when auto-generated"). -/
def specSlideFormat (s : String) : Bool :=
  match s.data with
  | c :: '-' :: rest =>
      (c == 't' || c == 'r') && decide (3 ≤ rest.length) &&
        decide (rest.length ≤ 6) && isDigits rest
  | _ => false

def digitVal (c : Char) : Nat := c.toNat - 48

/-- Python `int` on a non-empty decimal-digit string. -/
def digitsToNat (l : List Char) : Nat := l.foldl (fun acc c => 10 * acc + digitVal c) 0

/-- Model of `int(last["slide_id"].split("-")[1])` (server.py line 349).  This is
only evaluated on strings matched by `SLIDE_RE`, which have the shape
`t-<digits>`; for those, `split("-")[1]` is exactly the part after the
first two characters. -/
def slideNum (s : String) : Nat := digitsToNat (s.data.drop 2)

/-- Decimal digits of `m`, most significant first (`fuel`-structured so the
kernel can evaluate it; `natChars` supplies sufficient fuel). -/
def natCharsAux : Nat → Nat → List Char
  | 0, _ => []
  | fuel+1, m =>
      if m < 10 then [Nat.digitChar m]
      else natCharsAux fuel (m / 10) ++ [Nat.digitChar (m % 10)]

/-- The decimal rendering of a natural number. -/
def natChars (m : Nat) : List Char := natCharsAux (m+1) m

/-- Python's format specifier `{m:03d}`: decimal, zero-padded on the left
to a minimum width of 3. -/
def fmt03 (m : Nat) : String :=
  ⟨List.replicate (3 - (natChars m).length) '0' ++ natChars m⟩

/-- Model of `next_slide_id_for` (server.py lines 346-351). -/
def next_slide_id_for (table : List MemRec) (user_id thread_id : String) : String :=
  match select_latest_in_thread table user_id thread_id with
  | some last =>
      if slideReMatch last.slide_id then "t-" ++ fmt03 (slideNum last.slide_id + 1)
      else "t-001"
  | none => "t-001"

/-! ### Routes (server.py lines 383-456) -/

/-- The JSON body of a `/save_memory` request, restricted to the keys the
handler reads, plus the client-supplied `ts` key, which the handler never
reads (it is listed here exactly to state that independence).  Each default
mirrors the corresponding `data.get(key, default)`. -/
structure SavePayload where
  user_id : String := ""
  thread_id : String := "general"
  content : String := ""
  role : String := "assistant"
  drift_score : Option PyFloat := some (PyFloat.num (mkRat 1 10))
  glyph_echo : String := "🪞"
  «seal» : String := "lawful"
  slide_id : String := ""
  client_ts : Option Int := none
deriving DecidableEq, Repr

/-- The body of `save_memory` (server.py lines 392-423), after the auth and
rate-limit gates: returns the HTTP status together with the table after the
request.  `now` is the server clock value `int(time.time())`. -/
def save_memory (maxContentChars : Nat) (now : Int) (table : List MemRec)
    (p : SavePayload) : Nat × List MemRec :=
  let user_id := pyStrip p.user_id
  let thread_id := pySlice (let t := pyStrip p.thread_id; if t = "" then "general" else t) 64
  let content := pyStrip p.content
  let role := pySlice (let r := pyStrip p.role; if r = "" then "assistant" else r) 32
  if user_id = "" ∨ content = "" then (400, table)
  else if maxContentChars < content.length then (413, table)
  else
    let slide0 := pyStrip p.slide_id
    let slide_id :=
      if slide0 = "" ∨ slideReMatch slide0 = false then
        next_slide_id_for table user_id thread_id
      else slide0
    let newRec : MemRec :=
      { user_id := user_id, thread_id := thread_id, slide_id := slide_id,
        glyph_echo := sanitize_glyph p.glyph_echo,
        drift_score := clamp_drift p.drift_score,
        «seal» := sanitize_seal p.seal, role := role, content := content, ts := now }
    (201, insert_memory table newRec)

/-- The body of `get_memory` (server.py lines 425-456) after the gates and
parameter parsing: the returned items and the `next_before_ts` cursor
(`items[-1]["ts"] if items else None`). -/
def get_memory (table : List MemRec) (f : Filters) (limit : Nat)
    (before_ts : Option Int) : List MemRec × Option Int :=
  let items := select_memories table f limit before_ts
  (items, (items.getLast?).map (·.ts))

/-- The pagination chain of the spec's "repeatedly call `get_memory` with
`before_ts` set to the previous call's `next_before_ts`": the list of pages
obtained this way, stopping at the first empty page (whose cursor is
`none`).  `fuel` bounds the number of calls. -/
def pagesFrom (table : List MemRec) (f : Filters) (limit : Nat) :
    Nat → Option Int → List (List MemRec)
  | 0, _ => []
  | fuel+1, cur =>
      match (select_memories table f limit cur).getLast? with
      | none => []
      | some r => select_memories table f limit cur ::
          pagesFrom table f limit fuel (some r.ts)

/-! ### Auth (server.py lines 293-311) -/

/-- The bearer token of an `Authorization` header:
`auth.split(" ", 1)[1].strip() if auth.lower().startswith("bearer ") and " " in auth
else ""`.  When `auth.lower()` starts with `"bearer "`, the first space of
`auth` is at index 6 (lower-casing preserves spaces and the first six
characters are letters), so `split(" ", 1)[1]` is the text from index 7. -/
def bearer_of (authz : String) : String :=
  if "bearer ".data.isPrefixOf (pyLower authz).data && authz.data.contains ' ' then
    pyStrip ⟨authz.data.drop 7⟩
  else ""

/-- Model of `_auth_ok` (server.py lines 293-301), as a function of the configured
key and the three header values (`X-API-Key`, `X-API-KEY`, `Authorization`,
each `""` when absent). -/
def auth_ok (apiKey k1 k2 authz : String) : Bool :=
  if apiKey = "" then false
  else k1 == apiKey || k2 == apiKey || bearer_of authz == apiKey

/-- The `require_key` decorator (server.py lines 303-311): `some 401` when
the request is rejected, `none` when it is passed through to the handler. -/
def require_key_gate (apiKey method path k1 k2 authz : String) : Option Nat :=
  if method = "OPTIONS" ∨ path = "/" ∨ path = "/health" then none
  else if auth_ok apiKey k1 k2 authz then none
  else some 401

/-! ### utils/hash_identity.py -/

/-- 32-bit truncation. -/
def w32 (n : Nat) : Nat := n % 4294967296

/-- Right-rotation of a 32-bit value (`x < 2^32`). -/
def rotr32 (k x : Nat) : Nat := x / 2 ^ k + w32 (x * 2 ^ (32 - k))

/-- Logical right shift of a 32-bit value. -/
def shr32 (k x : Nat) : Nat := x / 2 ^ k

/-- Bitwise complement of a 32-bit value (`x < 2^32`). -/
def not32 (x : Nat) : Nat := 4294967295 - x

def chBits (x y z : Nat) : Nat := (x &&& y) ^^^ (not32 x &&& z)

def majBits (x y z : Nat) : Nat := (x &&& y) ^^^ (x &&& z) ^^^ (y &&& z)

def bigSigma0 (x : Nat) : Nat := rotr32 2 x ^^^ rotr32 13 x ^^^ rotr32 22 x

def bigSigma1 (x : Nat) : Nat := rotr32 6 x ^^^ rotr32 11 x ^^^ rotr32 25 x

def smallSigma0 (x : Nat) : Nat := rotr32 7 x ^^^ rotr32 18 x ^^^ shr32 3 x

def smallSigma1 (x : Nat) : Nat := rotr32 17 x ^^^ rotr32 19 x ^^^ shr32 10 x

/-- The SHA-256 round constants (FIPS 180-4 §4.2.2). -/
def sha256K : List Nat :=
  [1116352408, 1899447441, 3049323471, 3921009573, 961987163,
   1508970993, 2453635748, 2870763221, 3624381080, 310598401,
   607225278, 1426881987, 1925078388, 2162078206, 2614888103,
   3248222580, 3835390401, 4022224774, 264347078, 604807628,
   770255983, 1249150122, 1555081692, 1996064986, 2554220882,
   2821834349, 2952996808, 3210313671, 3336571891, 3584528711,
   113926993, 338241895, 666307205, 773529912, 1294757372,
   1396182291, 1695183700, 1986661051, 2177026350, 2456956037,
   2730485921, 2820302411, 3259730800, 3345764771, 3516065817,
   3600352804, 4094571909, 275423344, 430227734, 506948616,
   659060556, 883997877, 958139571, 1322822218, 1537002063,
   1747873779, 1955562222, 2024104815, 2227730452, 2361852424,
   2428436474, 2756734187, 3204031479, 3329325298]

/-- The eight 32-bit working values of the SHA-256 state. -/
structure Hash8 where
  a : Nat
  b : Nat
  c : Nat
  d : Nat
  e : Nat
  f : Nat
  g : Nat
  h : Nat
deriving Repr, DecidableEq

/-- The SHA-256 initial hash value (FIPS 180-4 §5.3.3). -/
def sha256H0 : Hash8 :=
  ⟨1779033703, 3144134277, 1013904242, 2773480762,
   1359893119, 2600822924, 528734635, 1541459225⟩

/-- Big-endian 8-byte encoding (of the message bit length). -/
def be8 (n : Nat) : List Nat :=
  [n / 2 ^ 56 % 256, n / 2 ^ 48 % 256, n / 2 ^ 40 % 256, n / 2 ^ 32 % 256,
   n / 2 ^ 24 % 256, n / 2 ^ 16 % 256, n / 2 ^ 8 % 256, n % 256]

/-- Big-endian 4-byte encoding of a 32-bit word. -/
def be4 (x : Nat) : List Nat := [x / 2 ^ 24 % 256, x / 2 ^ 16 % 256, x / 2 ^ 8 % 256, x % 256]

/-- SHA-256 message padding: `0x80`, zeros to 56 mod 64, 8-byte bit length. -/
def sha256Pad (msg : List Nat) : List Nat :=
  msg ++ [128] ++ List.replicate ((119 - msg.length % 64) % 64) 0 ++ be8 (8 * msg.length)

/-- The sixteen big-endian 32-bit words of one 64-byte block. -/
def blockWords (b : List Nat) : List Nat :=
  (List.range 16).map fun i =>
    b.getD (4 * i) 0 * 2 ^ 24 + b.getD (4 * i + 1) 0 * 2 ^ 16 +
      b.getD (4 * i + 2) 0 * 2 ^ 8 + b.getD (4 * i + 3) 0

/-- The SHA-256 message schedule: extend sixteen words to sixty-four. -/
def msgSchedule (ws : List Nat) : List Nat :=
  (List.range 48).foldl (fun ws i =>
    ws ++ [w32 (ws.getD i 0 + smallSigma0 (ws.getD (i + 1) 0) + ws.getD (i + 9) 0 +
      smallSigma1 (ws.getD (i + 14) 0))]) ws

/-- One SHA-256 compression round. -/
def sha256Round (w k : Nat) (s : Hash8) : Hash8 :=
  let t1 := w32 (s.h + bigSigma1 s.e + chBits s.e s.f s.g + k + w)
  let t2 := w32 (bigSigma0 s.a + majBits s.a s.b s.c)
  ⟨w32 (t1 + t2), s.a, s.b, s.c, w32 (s.d + t1), s.e, s.f, s.g⟩

/-- Compression of one 64-byte block into the running hash value. -/
def compressBlock (hv : Hash8) (block : List Nat) : Hash8 :=
  let ws := msgSchedule (blockWords block)
  let t := (List.range 64).foldl (fun s i => sha256Round (ws.getD i 0) (sha256K.getD i 0) s) hv
  ⟨w32 (hv.a + t.a), w32 (hv.b + t.b), w32 (hv.c + t.c), w32 (hv.d + t.d),
   w32 (hv.e + t.e), w32 (hv.f + t.f), w32 (hv.g + t.g), w32 (hv.h + t.h)⟩

/-- Model of `hashlib.sha256(msg).digest()`: the 32-byte SHA-256 digest of a byte
list (validated against the FIPS 180-4 test vectors for `""` and `"abc"`). -/
def sha256 (msg : List Nat) : List Nat :=
  let padded := sha256Pad msg
  let hv := ((List.range (padded.length / 64)).map fun i =>
    (padded.drop (64 * i)).take 64).foldl compressBlock sha256H0
  be4 hv.a ++ be4 hv.b ++ be4 hv.c ++ be4 hv.d ++ be4 hv.e ++ be4 hv.f ++ be4 hv.g ++ be4 hv.h

/-- The URL-safe base64 alphabet (RFC 4648 §5). -/
def b64Alphabet : List Char :=
  "ABCDEFGHIJKLMNOPQRSTUVWXYZabcdefghijklmnopqrstuvwxyz0123456789-_".data

def b64Char (i : Nat) : Char := b64Alphabet.getD i '?'

/-- Model of `base64.urlsafe_b64encode` on a byte list. -/
def urlsafe_b64encode : List Nat → List Char
  | [] => []
  | [b1] => [b64Char (b1 / 4), b64Char (b1 % 4 * 16), '=', '=']
  | [b1, b2] => [b64Char (b1 / 4), b64Char (b1 % 4 * 16 + b2 / 16), b64Char (b2 % 16 * 4), '=']
  | b1 :: b2 :: b3 :: rest =>
      b64Char (b1 / 4) :: b64Char (b1 % 4 * 16 + b2 / 16) ::
        b64Char (b2 % 16 * 4 + b3 / 64) :: b64Char (b3 % 64) :: urlsafe_b64encode rest

/-- Python `str.rstrip("=")`. -/
def rstripPad (l : List Char) : List Char := (l.reverse.dropWhile (· == '=')).reverse

/-- UTF-8 encoding of one code point (`str.encode("utf-8")`, per char). -/
def utf8Encode (c : Char) : List Nat :=
  let n := c.toNat
  if n < 128 then [n]
  else if n < 2048 then [192 + n / 64, 128 + n % 64]
  else if n < 65536 then [224 + n / 4096, 128 + n / 64 % 64, 128 + n % 64]
  else [240 + n / 262144, 128 + n / 4096 % 64, 128 + n / 64 % 64, 128 + n % 64]

/-- The bytes of `email.lower().encode("utf-8")`. -/
def utf8Bytes (s : String) : List Nat := s.data.flatMap utf8Encode

/-- Model of `generate_reflection_id` (utils/hash_identity.py lines 4-19); raising
`ValueError` is modelled as `Except.error` with the raised message. -/
def generate_reflection_id (email : String) : Except String String :=
  if email = "" then .error "Email required for lawful reflection ID"
  else
    let hashed_bytes := sha256 (utf8Bytes (pyLower email))
    let reflection_id := rstripPad (urlsafe_b64encode hashed_bytes)
    .ok ("GLYPH-" ++ ⟨reflection_id.take 16⟩)

/-! ### Concrete sample data for witness and counterexample statements -/

/-- A concrete record used in concrete-input theorems. -/
def sampleRec (sid content : String) (t : Int) : MemRec :=
  { user_id := "u", thread_id := "th", slide_id := sid, glyph_echo := "m",
    drift_score := .num 0, «seal» := "lawful", role := "assistant",
    content := content, ts := t }

/-! ### C5 — drift clamp -/

theorem mkRat_one_ten : (mkRat 1 10 : ℚ) = 1/10 := by
  rw [Rat.mkRat_eq_div]
  norm_num

theorem mkRat_three_ten : (mkRat 3 10 : ℚ) = 3/10 := by
  rw [Rat.mkRat_eq_div]
  norm_num

/-- C5: `clamp_drift` returns 0.10 when the input does not parse as a
floating-point number (`none`), and for every input — including the
non-finite parses `nan`, `inf`, `-inf` of non-finite strings — the
returned value is a finite number in the closed interval [0, 0.30]. -/
theorem clamp_drift_spec (x : Option PyFloat) :
    (x = none → clamp_drift x = PyFloat.num (1/10)) ∧
    ∃ q : ℚ, clamp_drift x = PyFloat.num q ∧ 0 ≤ q ∧ q ≤ 3/10 := by
  constructor
  · rintro rfl
    rw [show clamp_drift none = PyFloat.num (mkRat 1 10) from rfl, mkRat_one_ten]
  · match x with
    | none => exact ⟨1/10, by rw [show clamp_drift none = PyFloat.num (mkRat 1 10) from rfl,
        mkRat_one_ten], by norm_num, by norm_num⟩
    | some .nan => exact ⟨0, rfl, le_refl 0, by norm_num⟩
    | some .inf =>
        refine ⟨3/10, ?_, by norm_num, le_refl _⟩
        rw [show clamp_drift (some PyFloat.inf) = PyFloat.num (mkRat 3 10) from by decide,
          mkRat_three_ten]
    | some .ninf => exact ⟨0, rfl, le_refl 0, by norm_num⟩
    | some (.num q) =>
        show ∃ s : ℚ, pyMax (.num 0) (pyMin (.num q) (.num (mkRat 3 10))) = PyFloat.num s ∧
          0 ≤ s ∧ s ≤ 3/10
        rw [mkRat_three_ten]
        by_cases h1 : (3:ℚ)/10 < q
        · refine ⟨3/10, ?_, by norm_num, le_refl _⟩
          simp [pyMin, pyMax, pyLt, h1]
        · by_cases h2 : (0:ℚ) < q
          · refine ⟨q, ?_, le_of_lt h2, not_lt.mp h1⟩
            simp [pyMin, pyMax, pyLt, h1, h2]
          · refine ⟨0, ?_, le_refl 0, by norm_num⟩
            simp [pyMin, pyMax, pyLt, h1, h2]

/-- Witness for C5 at the failing-parse input. -/
theorem clamp_drift_spec_witness :
    clamp_drift none = PyFloat.num (1/10) ∧
    ∃ q : ℚ, clamp_drift none = PyFloat.num q ∧ 0 ≤ q ∧ q ≤ 3/10 :=
  ⟨(clamp_drift_spec none).1 rfl, (clamp_drift_spec none).2⟩

/-! ### C6 — glyph sanitizer -/

/-- C6 counterexample: for the whitespace-only input `" "` the trimmed
input is empty, yet `sanitize_glyph` returns the empty string, not the
fixed placeholder glyph: the code applies the `or`-default before
stripping (`(g or "🪞").strip()`), so only the already-empty input gets
the placeholder. -/
theorem sanitize_glyph_whitespace_counterexample :
    sanitize_glyph " " = "" ∧ sanitize_glyph " " ≠ "🪞" :=
  ⟨by decide, by decide⟩

/-- C6 (amended): `sanitize_glyph` returns the placeholder exactly when
the input string itself is empty; otherwise it strips surrounding
whitespace (a whitespace-only input therefore becomes the empty string,
not the placeholder) and truncates to at most 16 characters. -/
theorem sanitize_glyph_spec (g : String) :
    (g = "" → sanitize_glyph g = "🪞") ∧
    (g ≠ "" → sanitize_glyph g = pySlice (pyStrip g) GLYPH_MAX) ∧
    (sanitize_glyph g).length ≤ 16 := by
  refine ⟨?_, ?_, ?_⟩
  · rintro rfl; rfl
  · intro h; simp [sanitize_glyph, h]
  · show (List.take GLYPH_MAX (pyStrip _).data).length ≤ 16
    simp [List.length_take, GLYPH_MAX]

/-- Witness for C6 at the whitespace-only input. -/
theorem sanitize_glyph_spec_witness :
    sanitize_glyph " " = pySlice (pyStrip " ") GLYPH_MAX ∧
    (sanitize_glyph " ").length ≤ 16 :=
  ⟨(sanitize_glyph_spec " ").2.1 (by decide), (sanitize_glyph_spec " ").2.2⟩

/-! ### C9 — auth fails closed -/

/-- C9: when the configured API key is empty, `_auth_ok` returns false for
every combination of header values — including a request presenting an
empty key — and `require_key` rejects every non-OPTIONS request to
/save_memory or /get_memory with 401: the service fails closed. -/
theorem auth_fails_closed (k1 k2 authz method path : String)
    (hm : method ≠ "OPTIONS")
    (hp : path = "/save_memory" ∨ path = "/get_memory") :
    auth_ok "" k1 k2 authz = false ∧
    require_key_gate "" method path k1 k2 authz = some 401 := by
  have hok : auth_ok "" k1 k2 authz = false := rfl
  refine ⟨hok, ?_⟩
  have hp1 : path ≠ "/" := by rcases hp with rfl | rfl <;> decide
  have hp2 : path ≠ "/health" := by rcases hp with rfl | rfl <;> decide
  simp [require_key_gate, hm, hp1, hp2, hok]

/-- Witness for C9: a POST to /save_memory presenting an empty key. -/
theorem auth_fails_closed_witness :
    auth_ok "" "" "" "" = false ∧
    require_key_gate "" "POST" "/save_memory" "" "" "" = some 401 :=
  auth_fails_closed "" "" "" "POST" "/save_memory" (by decide) (by decide)

/-! ### Decimal-rendering lemmas for the ID allocator -/

theorem digitVal_digitChar : ∀ d < 10, digitVal (Nat.digitChar d) = d := by decide

theorem digitChar_isDigit : ∀ d < 10, (Nat.digitChar d).isDigit = true := by decide

theorem digitsToNat_append_single (l : List Char) (c : Char) :
    digitsToNat (l ++ [c]) = 10 * digitsToNat l + digitVal c := by
  simp [digitsToNat, List.foldl_append]

theorem natCharsAux_toNat : ∀ fuel m, m < fuel → digitsToNat (natCharsAux fuel m) = m := by
  intro fuel
  induction fuel with
  | zero => intro m hm; omega
  | succ fuel ih =>
      intro m hm
      by_cases h10 : m < 10
      · simp [natCharsAux, h10, digitsToNat, digitVal_digitChar m h10]
      · have hdiv : m / 10 < fuel := by
          have h1 : m / 10 < m := Nat.div_lt_self (by omega) (by omega)
          omega
        simp only [natCharsAux, if_neg h10, digitsToNat_append_single, ih _ hdiv,
          digitVal_digitChar (m % 10) (Nat.mod_lt m (by omega))]
        omega

theorem natCharsAux_length : ∀ fuel m k, m < fuel → m < 10 ^ (k + 1) →
    (natCharsAux fuel m).length ≤ k + 1 := by
  intro fuel
  induction fuel with
  | zero => intro m k hm; omega
  | succ fuel ih =>
      intro m k hm hk
      by_cases h10 : m < 10
      · simp [natCharsAux, h10]
      · have hk1 : 1 ≤ k := by
          by_contra hc
          have hk0 : k = 0 := by omega
          subst hk0
          simp at hk
          omega
        obtain ⟨k', rfl⟩ : ∃ k', k = k' + 1 := ⟨k - 1, by omega⟩
        have hdiv : m / 10 < fuel := by
          have h1 : m / 10 < m := Nat.div_lt_self (by omega) (by omega)
          omega
        have hdiv10 : m / 10 < 10 ^ (k' + 1) := by
          rw [Nat.div_lt_iff_lt_mul (by omega)]
          calc m < 10 ^ (k' + 1 + 1) := hk
            _ = 10 ^ (k' + 1) * 10 := by ring
        have hlen := ih (m / 10) k' hdiv hdiv10
        simp only [natCharsAux, if_neg h10, List.length_append, List.length_cons,
          List.length_nil]
        omega

theorem natCharsAux_length_pos : ∀ fuel m, 0 < fuel → 1 ≤ (natCharsAux fuel m).length := by
  intro fuel m hf
  match fuel, hf with
  | fuel + 1, _ =>
      by_cases h10 : m < 10
      · simp [natCharsAux, h10]
      · simp [natCharsAux, h10]

theorem natCharsAux_digits : ∀ fuel m, isDigits (natCharsAux fuel m) = true := by
  intro fuel
  induction fuel with
  | zero => intro m; rfl
  | succ fuel ih =>
      intro m
      by_cases h10 : m < 10
      · simp [natCharsAux, h10, isDigits, digitChar_isDigit m h10]
      · have h1 := ih (m / 10)
        have h2 := digitChar_isDigit (m % 10) (Nat.mod_lt m (by omega))
        simp [natCharsAux, h10, isDigits] at h1 ⊢
        exact ⟨h1, h2⟩

theorem natChars_toNat (m : Nat) : digitsToNat (natChars m) = m :=
  natCharsAux_toNat (m + 1) m (Nat.lt_succ_self m)

theorem natChars_length_le (m k : Nat) (h : m < 10 ^ (k + 1)) :
    (natChars m).length ≤ k + 1 :=
  natCharsAux_length (m + 1) m k (Nat.lt_succ_self m) h

theorem natChars_length_pos (m : Nat) : 1 ≤ (natChars m).length :=
  natCharsAux_length_pos (m + 1) m (Nat.succ_pos m)

theorem natChars_digits (m : Nat) : isDigits (natChars m) = true :=
  natCharsAux_digits (m + 1) m

theorem fmt03_data (m : Nat) :
    (fmt03 m).data = List.replicate (3 - (natChars m).length) '0' ++ natChars m := rfl

theorem fmt03_length (m : Nat) :
    (fmt03 m).data.length = max 3 (natChars m).length := by
  have hpos := natChars_length_pos m
  simp [fmt03_data]
  omega

theorem fmt03_digits (m : Nat) : isDigits (fmt03 m).data = true := by
  show (List.replicate (3 - (natChars m).length) '0' ++ natChars m).all Char.isDigit = true
  rw [List.all_append]
  have h1 : (List.replicate (3 - (natChars m).length) '0').all Char.isDigit = true := by
    rw [List.all_eq_true]
    intro c hc
    rw [List.eq_of_mem_replicate hc]
    decide
  have h2 : (natChars m).all Char.isDigit = true := natChars_digits m
  rw [h1, h2]
  rfl

theorem zeros_foldl : ∀ k, List.foldl (fun acc c => 10 * acc + digitVal c) 0
    (List.replicate k '0') = 0 := by
  intro k
  induction k with
  | zero => rfl
  | succ k ih => simpa [List.replicate_succ, digitVal]

theorem digitsToNat_fmt03 (m : Nat) : digitsToNat (fmt03 m).data = m := by
  rw [fmt03_data]
  show List.foldl _ 0 _ = m
  rw [List.foldl_append, zeros_foldl]
  exact natChars_toNat m

theorem t_append_data (s : String) : ("t-" ++ s).data = 't' :: '-' :: s.data := rfl

theorem slideNum_t_fmt03 (m : Nat) : slideNum ("t-" ++ fmt03 m) = m := by
  simp only [slideNum, t_append_data, List.drop_succ_cons, List.drop_zero]
  exact digitsToNat_fmt03 m

theorem slideReMatch_t_fmt03 (m : Nat) (h : m ≤ 999999) :
    slideReMatch ("t-" ++ fmt03 m) = true := by
  have hlen := fmt03_length m
  have hle : (natChars m).length ≤ 6 := natChars_length_le m 5 (by omega)
  have hdig := fmt03_digits m
  simp only [slideReMatch, t_append_data]
  simp only [Bool.and_eq_true, decide_eq_true_eq]
  exact ⟨⟨by omega, by omega⟩, hdig⟩

theorem specSlideFormat_t_fmt03 (m : Nat) (h : m ≤ 999999) :
    specSlideFormat ("t-" ++ fmt03 m) = true := by
  have hlen := fmt03_length m
  have hle : (natChars m).length ≤ 6 := natChars_length_le m 5 (by omega)
  have hdig := fmt03_digits m
  simp only [specSlideFormat, t_append_data]
  simp only [Bool.and_eq_true, Bool.or_eq_true, beq_iff_eq, decide_eq_true_eq]
  exact ⟨⟨⟨Or.inl trivial, by omega⟩, by omega⟩, hdig⟩

/-! ### C1 — ID allocator increment -/

/-- C1 counterexample: with latest stored slide_id "t-0041" (a pattern
match, zero-padded to four digits), the allocator returns "t-042", not
"t-0042": the trailing integer is re-formatted with Python's `{n:03d}`,
zero-padded to a minimum of 3 digits, and the input's own wider
zero-padding is not preserved. -/
theorem next_slide_id_padding_counterexample :
    slideReMatch "t-0041" = true ∧
    next_slide_id_for [sampleRec "t-0041" "x" 100] "u" "th" = "t-042" ∧
    next_slide_id_for [sampleRec "t-0041" "x" 100] "u" "th" ≠ "t-0042" :=
  ⟨by decide, by decide, by decide⟩

/-- C1 (amended): if the group has no stored record, or the latest
record's slide_id does not match `^t-\d{3,6}$`, `next_slide_id_for`
returns "t-001"; otherwise it returns "t-" followed by the latest id's
trailing integer plus one, re-formatted zero-padded to a **minimum of 3
digits** (Python `{n+1:03d}`; the input's own zero-padding width is not
preserved), so that the numeric value of the returned id is the latest
id's value plus one. -/
theorem next_slide_id_for_spec (table : List MemRec) (u t : String) :
    ((select_latest_in_thread table u t = none ∨
      ∃ last, select_latest_in_thread table u t = some last ∧
        slideReMatch last.slide_id = false) →
      next_slide_id_for table u t = "t-001") ∧
    (∀ last, select_latest_in_thread table u t = some last →
      slideReMatch last.slide_id = true →
      next_slide_id_for table u t = "t-" ++ fmt03 (slideNum last.slide_id + 1) ∧
      slideNum (next_slide_id_for table u t) = slideNum last.slide_id + 1) := by
  constructor
  · rintro (h | ⟨last, h, hm⟩)
    · simp [next_slide_id_for, h]
    · simp [next_slide_id_for, h, hm]
  · intro last h hm
    have he : next_slide_id_for table u t = "t-" ++ fmt03 (slideNum last.slide_id + 1) := by
      simp [next_slide_id_for, h, hm]
    exact ⟨he, by rw [he, slideNum_t_fmt03]⟩

/-- Witness for C1: the spec's own example, latest "t-041" yields "t-042". -/
theorem next_slide_id_for_spec_witness :
    next_slide_id_for [sampleRec "t-041" "x" 100] "u" "th" =
      "t-" ++ fmt03 (slideNum "t-041" + 1) ∧
    slideNum (next_slide_id_for [sampleRec "t-041" "x" 100] "u" "th") =
      slideNum "t-041" + 1 :=
  (next_slide_id_for_spec [sampleRec "t-041" "x" 100] "u" "th").2
    (sampleRec "t-041" "x" 100) (by decide) (by decide)

/-! ### C4 — auto-generated id format -/

/-- C4 counterexample: the state holding one record with the
client-supplied, pattern-valid slide_id "t-999999" is reachable (the save
request storing it returns 201), and from that state the allocator
generates "t-1000000", which does not match `^[tr]-\d{3,6}$` (seven
digits). -/
theorem slide_format_overflow_counterexample :
    slideReMatch "t-999999" = true ∧
    (save_memory 65536 100 []
      { user_id := "u", thread_id := "th", content := "x", slide_id := "t-999999" }).1 = 201 ∧
    next_slide_id_for
      (save_memory 65536 100 []
        { user_id := "u", thread_id := "th", content := "x", slide_id := "t-999999" }).2
      "u" "th" = "t-1000000" ∧
    specSlideFormat "t-1000000" = false :=
  ⟨by decide, by decide, by decide, by decide⟩

/-- C4 (amended): every auto-generated slide_id matches `^[tr]-\d{3,6}$`
(indeed `^t-\d{3,6}$`) for every stored state in which the latest
record's pattern-valid slide_id, if any, has numeric value at most
999998; for value 999999 the generated "t-1000000" overflows the
pattern. -/
theorem next_slide_id_format_spec (table : List MemRec) (u t : String)
    (h : ∀ last, select_latest_in_thread table u t = some last →
      slideReMatch last.slide_id = true → slideNum last.slide_id + 1 ≤ 999999) :
    slideReMatch (next_slide_id_for table u t) = true ∧
    specSlideFormat (next_slide_id_for table u t) = true := by
  unfold next_slide_id_for
  match hsel : select_latest_in_thread table u t with
  | none => exact ⟨by decide, by decide⟩
  | some last =>
      by_cases hm : slideReMatch last.slide_id = true
      · have hb := h last hsel hm
        simp only [hm, if_true]
        exact ⟨slideReMatch_t_fmt03 _ hb, specSlideFormat_t_fmt03 _ hb⟩
      · simp only [Bool.not_eq_true] at hm
        simp only [hm, Bool.false_eq_true, if_false]
        exact ⟨by decide, by decide⟩

/-- Witness for C4 at a state with latest id "t-041". -/
theorem next_slide_id_format_spec_witness :
    slideReMatch (next_slide_id_for [sampleRec "t-041" "x" 100] "u" "th") = true ∧
    specSlideFormat (next_slide_id_for [sampleRec "t-041" "x" 100] "u" "th") = true :=
  next_slide_id_format_spec [sampleRec "t-041" "x" 100] "u" "th"
    (by
      intro last hl hm
      have hsel : select_latest_in_thread [sampleRec "t-041" "x" 100] "u" "th" =
          some (sampleRec "t-041" "x" 100) := by decide
      rw [hsel, Option.some_inj] at hl
      subst hl
      decide)

/-! ### C2 — select filter/limit contract -/

/-- C2: `select(filters, limit)` returns at most `limit` rows; every
returned row satisfies every equality filter whose value is non-empty;
and a filter that is absent or has the empty-string value imposes no
constraint at all (the result is identical to the one with that filter
absent, so an empty value matches all rows, not only empty-valued ones). -/
theorem select_memories_spec (table : List MemRec) (f : Filters) (limit : Nat) :
    (select_memories table f limit none).length ≤ limit ∧
    (∀ r ∈ select_memories table f limit none, matchesFilters f r = true) ∧
    select_memories table { f with user_id := some "" } limit none =
      select_memories table { f with user_id := none } limit none ∧
    select_memories table { f with thread_id := some "" } limit none =
      select_memories table { f with thread_id := none } limit none ∧
    select_memories table { f with slide_id := some "" } limit none =
      select_memories table { f with slide_id := none } limit none ∧
    select_memories table { f with «seal» := some "" } limit none =
      select_memories table { f with «seal» := none } limit none ∧
    select_memories table { f with role := some "" } limit none =
      select_memories table { f with role := none } limit none := by
  refine ⟨?_, ?_, rfl, rfl, rfl, rfl, rfl⟩
  · simp [select_memories, List.length_take]
  · intro r hr
    have h1 : r ∈ sortByTsDesc (applyBefore none (table.filter (matchesFilters f))) :=
      List.mem_of_mem_take hr
    have h2 : r ∈ table.filter (matchesFilters f) :=
      ((List.perm_insertionSort tsGe _).mem_iff).mp h1
    exact List.of_mem_filter h2

/-- Witness for C2 at a one-row table with an active user_id filter. -/
theorem select_memories_spec_witness :
    (select_memories [sampleRec "t-001" "x" 100]
      { user_id := some "u" } 1 none).length ≤ 1 ∧
    matchesFilters { user_id := some "u" } (sampleRec "t-001" "x" 100) = true :=
  ⟨(select_memories_spec [sampleRec "t-001" "x" 100] { user_id := some "u" } 1).1,
   (select_memories_spec [sampleRec "t-001" "x" 100] { user_id := some "u" } 1).2.1
     (sampleRec "t-001" "x" 100) (by decide)⟩

/-! ### C7 — oversize content -/

/-- C7 counterexample: with configured maximum 3, the request content
`" aaa"` is one character longer than the maximum (length 4), yet the
response is 201 and a record is written (with the stripped content
"aaa"): the handler strips surrounding whitespace *before* measuring, so
the claim's bound on the raw request content does not hold. -/
theorem oversize_content_strip_counterexample :
    (" aaa" : String).length = 3 + 1 ∧
    save_memory 3 5 [] { user_id := "u", content := " aaa" } =
      (201, [{ user_id := "u", thread_id := "general", slide_id := "t-001",
               glyph_echo := "🪞", drift_score := .num (mkRat 1 10), «seal» := "lawful",
               role := "assistant", content := "aaa", ts := 5 }]) :=
  ⟨by decide, by decide⟩

/-- C7 (amended): for every save request whose content, *after stripping
surrounding whitespace*, is longer than the configured maximum (in
particular one character longer), and whose stripped user_id is
non-empty, the response status is 413 and no record is written: the
stored table is unchanged. -/
theorem save_memory_oversize_spec (maxC : Nat) (now : Int) (table : List MemRec)
    (p : SavePayload) (hu : pyStrip p.user_id ≠ "")
    (hc : maxC < (pyStrip p.content).length) :
    save_memory maxC now table p = (413, table) := by
  have hne : pyStrip p.content ≠ "" := by
    intro h
    rw [h] at hc
    simp [String.length] at hc
  simp [save_memory, hu, hne, hc]

/-- Witness for C7: configured maximum 3, content "aaaa" of length 4. -/
theorem save_memory_oversize_spec_witness :
    save_memory 3 7 [] { user_id := "u", content := "aaaa" } = (413, []) :=
  save_memory_oversize_spec 3 7 [] { user_id := "u", content := "aaaa" }
    (by decide) (by decide)

/-! ### C8 — server-assigned timestamp -/

/-- C8: the stored ts is the server's insertion time and independent of
client input: two payloads differing only in the client-supplied ts field
produce identical responses and identical stored state, and every
successful save appends exactly one record whose ts is the server clock
value. -/
theorem save_memory_server_ts (maxC : Nat) (now : Int) (table : List MemRec)
    (p : SavePayload) (cts1 cts2 : Option Int) :
    save_memory maxC now table { p with client_ts := cts1 } =
      save_memory maxC now table { p with client_ts := cts2 } ∧
    (∀ st tbl2, save_memory maxC now table p = (st, tbl2) → st = 201 →
      ∃ r : MemRec, tbl2 = table ++ [r] ∧ r.ts = now) := by
  constructor
  · rfl
  · intro st tbl2 h h201
    subst h201
    by_cases h1 : pyStrip p.user_id = "" ∨ pyStrip p.content = ""
    · simp [save_memory, h1] at h
    · by_cases h2 : maxC < (pyStrip p.content).length
      · simp [save_memory, h1, h2] at h
      · simp only [save_memory, if_neg h1, if_neg h2, Prod.mk.injEq] at h
        exact ⟨_, h.2.symm, rfl⟩

/-- Witness for C8: two saves differing only in the client ts field. -/
theorem save_memory_server_ts_witness :
    save_memory 10 42 [] { user_id := "u", content := "c", client_ts := some 7 } =
      save_memory 10 42 [] { user_id := "u", content := "c", client_ts := some 9 } ∧
    ∃ r : MemRec,
      (save_memory 10 42 [] { user_id := "u", content := "c", client_ts := some 7 }).2 =
        [] ++ [r] ∧ r.ts = 42 :=
  ⟨(save_memory_server_ts 10 42 []
      { user_id := "u", content := "c", client_ts := some 7 } (some 7) (some 9)).1,
   (save_memory_server_ts 10 42 []
      { user_id := "u", content := "c", client_ts := some 7 } (some 7) (some 9)).2
      201
      (save_memory 10 42 [] { user_id := "u", content := "c", client_ts := some 7 }).2
      (by decide) rfl⟩

/-! ### C3 — cursor pagination -/

/-- Strict descending-timestamp order. -/
def tsGtStrict (a b : MemRec) : Prop := b.ts < a.ts

instance : IsAntisymm MemRec tsGtStrict :=
  ⟨fun _ _ h1 h2 => absurd (lt_trans h1 h2) (lt_irrefl _)⟩

theorem sortByTsDesc_perm (l : List MemRec) : (sortByTsDesc l).Perm l :=
  List.perm_insertionSort tsGe l

theorem sortByTsDesc_sorted (l : List MemRec) : List.Sorted tsGe (sortByTsDesc l) :=
  List.sorted_insertionSort tsGe l

theorem pairwise_strict_of_sorted {l : List MemRec}
    (hs : List.Sorted tsGe l) (hnd : l.Pairwise fun a b => a.ts ≠ b.ts) :
    l.Pairwise tsGtStrict :=
  (List.Pairwise.and hs hnd).imp fun h => lt_of_le_of_ne h.1 (Ne.symm h.2)

theorem filter_sortByTsDesc (q : MemRec → Bool) {l : List MemRec}
    (hnd : l.Pairwise fun a b => a.ts ≠ b.ts) :
    (sortByTsDesc l).filter q = sortByTsDesc (l.filter q) := by
  have hndS : (sortByTsDesc l).Pairwise fun a b => a.ts ≠ b.ts :=
    ((sortByTsDesc_perm l).pairwise_iff fun h => Ne.symm h).mpr hnd
  have h1 : ((sortByTsDesc l).filter q).Pairwise tsGtStrict :=
    List.Pairwise.filter q (pairwise_strict_of_sorted (sortByTsDesc_sorted l) hndS)
  have h2 : (sortByTsDesc (l.filter q)).Pairwise tsGtStrict :=
    pairwise_strict_of_sorted (sortByTsDesc_sorted _)
      (((sortByTsDesc_perm _).pairwise_iff fun h => Ne.symm h).mpr
        (List.Pairwise.filter q hnd))
  have hperm : ((sortByTsDesc l).filter q).Perm (sortByTsDesc (l.filter q)) :=
    ((sortByTsDesc_perm l).filter q).trans ((sortByTsDesc_perm (l.filter q)).symm)
  exact List.eq_of_perm_of_sorted hperm h1 h2

theorem ts_le_of_getLast {l : List MemRec} (hp : l.Pairwise tsGtStrict) {r : MemRec}
    (hr : l.getLast? = some r) : ∀ x ∈ l, r.ts ≤ x.ts := by
  induction l with
  | nil => simp at hr
  | cons a t ih =>
      cases t with
      | nil =>
          simp only [List.getLast?_singleton, Option.some_inj] at hr
          subst hr
          intro x hx
          rw [List.mem_singleton] at hx
          subst hx
          exact le_refl _
      | cons b t2 =>
          rw [List.getLast?_cons_cons] at hr
          have hmem : r ∈ b :: t2 := by
            rcases List.getLast?_eq_some_iff.mp hr with ⟨ys, hys⟩
            rw [hys]
            simp
          intro x hx
          rcases List.mem_cons.mp hx with rfl | hx2
          · exact le_of_lt (List.rel_of_pairwise_cons hp hmem)
          · exact ih hp.of_cons hr x hx2

theorem filter_lt_getLast_take {S : List MemRec} (hS : S.Pairwise tsGtStrict)
    (limit : Nat) {r : MemRec} (hlast : (S.take limit).getLast? = some r) :
    S.filter (fun x => decide (x.ts < r.ts)) = S.drop limit := by
  have hrmem : r ∈ S.take limit := by
    rcases List.getLast?_eq_some_iff.mp hlast with ⟨ys, hys⟩
    rw [hys]
    simp
  have htake : ∀ x ∈ S.take limit, r.ts ≤ x.ts :=
    ts_le_of_getLast (List.Pairwise.sublist (List.take_sublist limit S) hS) hlast
  have hdrop : ∀ y ∈ S.drop limit, y.ts < r.ts := by
    have hS' : List.Pairwise tsGtStrict (S.take limit ++ S.drop limit) := by
      rw [List.take_append_drop]
      exact hS
    intro y hy
    exact (List.pairwise_append.mp hS').2.2 r hrmem y hy
  conv_lhs => rw [← List.take_append_drop limit S]
  rw [List.filter_append]
  have h1 : (S.take limit).filter (fun x => decide (x.ts < r.ts)) = [] := by
    rw [List.filter_eq_nil_iff]
    intro x hx
    simp only [decide_eq_true_eq]
    exact not_lt.mpr (htake x hx)
  have h2 : (S.drop limit).filter (fun x => decide (x.ts < r.ts)) = S.drop limit := by
    rw [List.filter_eq_self]
    intro y hy
    simp only [decide_eq_true_eq]
    exact hdrop y hy
  rw [h1, h2, List.nil_append]

theorem pagesFrom_flatten (table : List MemRec) (f : Filters) (limit : Nat)
    (hnd : (table.filter (matchesFilters f)).Pairwise fun a b => a.ts ≠ b.ts)
    (hnz : ∀ x ∈ table.filter (matchesFilters f), x.ts ≠ 0)
    (hlim : 1 ≤ limit) :
    ∀ fuel (cur : Option Int),
      (applyBefore cur (sortByTsDesc (table.filter (matchesFilters f)))).length ≤ fuel →
      (pagesFrom table f limit fuel cur).flatten =
        applyBefore cur (sortByTsDesc (table.filter (matchesFilters f))) := by
  set P := table.filter (matchesFilters f) with hP
  set S := sortByTsDesc P with hSdef
  have hndS : S.Pairwise fun a b => a.ts ≠ b.ts :=
    ((sortByTsDesc_perm P).pairwise_iff fun h => Ne.symm h).mpr hnd
  have hstrict : S.Pairwise tsGtStrict :=
    pairwise_strict_of_sorted (sortByTsDesc_sorted P) hndS
  have hnzS : ∀ x ∈ S, x.ts ≠ 0 := fun x hx =>
    hnz x (((sortByTsDesc_perm P).mem_iff).mp hx)
  have hsel : ∀ cur, select_memories table f limit cur = (applyBefore cur S).take limit := by
    intro cur
    match cur with
    | none => rfl
    | some b =>
        by_cases hb : b ≠ 0
        · show (sortByTsDesc (applyBefore (some b) P)).take limit = _
          have e1 : applyBefore (some b) P = P.filter (fun r => decide (r.ts < b)) := by
            simp [applyBefore, hb]
          have e2 : applyBefore (some b) S = S.filter (fun r => decide (r.ts < b)) := by
            simp [applyBefore, hb]
          rw [e1, e2, filter_sortByTsDesc _ hnd]
        · rw [not_not] at hb
          subst hb
          rfl
  have hstrictT : ∀ cur, (applyBefore cur S).Pairwise tsGtStrict := by
    intro cur
    match cur with
    | none => exact hstrict
    | some b =>
        by_cases hb : b ≠ 0
        · simp only [applyBefore, if_pos hb]
          exact List.Pairwise.filter _ hstrict
        · simp only [applyBefore, if_neg hb]
          exact hstrict
  have hmemT : ∀ cur x, x ∈ applyBefore cur S → x ∈ S := by
    intro cur x hx
    match cur with
    | none => exact hx
    | some b =>
        by_cases hb : b ≠ 0
        · simp only [applyBefore, if_pos hb] at hx
          exact List.mem_of_mem_filter hx
        · simp only [applyBefore, if_neg hb] at hx
          exact hx
  intro fuel
  induction fuel with
  | zero =>
      intro cur hlen
      rw [Nat.le_zero, List.length_eq_zero] at hlen
      simp [pagesFrom, hlen]
  | succ fuel ih =>
      intro cur hlen
      simp only [pagesFrom, hsel cur]
      cases hgl : ((applyBefore cur S).take limit).getLast? with
      | none =>
          rw [List.getLast?_eq_none_iff] at hgl
          rcases List.take_eq_nil_iff.mp hgl with h | h
          · omega
          · rw [h]
            rfl
      | some r =>
          have hrmemT : r ∈ applyBefore cur S := by
            rcases List.getLast?_eq_some_iff.mp hgl with ⟨ys, hys⟩
            have hmem : r ∈ (applyBefore cur S).take limit := by
              rw [hys]
              simp
            exact List.mem_of_mem_take hmem
          have hrts : r.ts ≠ 0 := hnzS r (hmemT cur r hrmemT)
          have happ : applyBefore (some r.ts) S = S.filter (fun x => decide (x.ts < r.ts)) := by
            simp [applyBefore, hrts]
          have hstep : S.filter (fun x => decide (x.ts < r.ts)) =
              (applyBefore cur S).drop limit := by
            match cur with
            | none => exact filter_lt_getLast_take hstrict limit hgl
            | some b =>
                by_cases hb : b ≠ 0
                · have hTb : applyBefore (some b) S = S.filter (fun x => decide (x.ts < b)) := by
                    simp [applyBefore, hb]
                  have hrb : r.ts < b := by
                    have hmemb := hrmemT
                    rw [hTb] at hmemb
                    simpa using List.of_mem_filter hmemb
                  have hTfilter := filter_lt_getLast_take (hstrictT (some b)) limit hgl
                  rw [hTb] at hTfilter
                  rw [List.filter_filter] at hTfilter
                  have hcongr : S.filter (fun x => decide (x.ts < r.ts) && decide (x.ts < b)) =
                      S.filter (fun x => decide (x.ts < r.ts)) := by
                    apply List.filter_congr
                    intro x _
                    by_cases hx : x.ts < r.ts
                    · simp [hx, lt_trans hx hrb]
                    · simp [hx]
                  rw [hcongr] at hTfilter
                  rw [hTfilter, hTb]
                · rw [not_not] at hb
                  subst hb
                  exact filter_lt_getLast_take hstrict limit hgl
          have hlen' : (applyBefore (some r.ts) S).length ≤ fuel := by
            rw [happ, hstep, List.length_drop]
            omega
          have hI := ih (some r.ts) hlen'
          rw [happ, hstep] at hI
          simp only [List.flatten_cons, hI, List.take_append_drop]

/-- C3 counterexample: two matching records share the timestamp 100; with
limit 1, the first page returns one of them and sets the cursor to 100,
the second call (`ts < 100`) returns the empty page and pagination stops —
the other record is never returned, so the pages do not exhaust the
matching records.  (The server assigns `ts` at second granularity, so
equal timestamps arise whenever two saves land in the same second.) -/
theorem pagination_ties_counterexample :
    sampleRec "t-002" "y" 100 ∈
      List.filter (matchesFilters {}) [sampleRec "t-001" "x" 100, sampleRec "t-002" "y" 100] ∧
    sampleRec "t-002" "y" 100 ∉
      (pagesFrom [sampleRec "t-001" "x" 100, sampleRec "t-002" "y" 100] {} 1 5 none).flatten :=
  ⟨by decide, by decide⟩

/-- C3 (amended): provided the matching records carry pairwise-distinct,
non-zero timestamps and the limit is at least 1, the pagination chain
(continued until an empty page, with enough calls) yields pairwise
disjoint pages which together exhaust exactly the records matching the
filters.  With tied timestamps, records can be skipped (see the
counterexample); with a zero timestamp the cursor 0 is treated as absent
by the `if before_ts:` truthiness test. -/
theorem get_memory_pagination_spec (table : List MemRec) (f : Filters)
    (limit fuel : Nat)
    (hnd : (table.filter (matchesFilters f)).Pairwise fun a b => a.ts ≠ b.ts)
    (hnz : ∀ x ∈ table.filter (matchesFilters f), x.ts ≠ 0)
    (hlim : 1 ≤ limit)
    (hfuel : (table.filter (matchesFilters f)).length ≤ fuel) :
    ((pagesFrom table f limit fuel none).flatten).Perm
      (table.filter (matchesFilters f)) ∧
    (pagesFrom table f limit fuel none).Pairwise List.Disjoint := by
  have hlenS : (applyBefore none (sortByTsDesc (table.filter (matchesFilters f)))).length
      ≤ fuel := by
    show (sortByTsDesc (table.filter (matchesFilters f))).length ≤ fuel
    rw [(sortByTsDesc_perm _).length_eq]
    exact hfuel
  have hflat : (pagesFrom table f limit fuel none).flatten =
      sortByTsDesc (table.filter (matchesFilters f)) :=
    pagesFrom_flatten table f limit hnd hnz hlim fuel none hlenS
  constructor
  · rw [hflat]
    exact sortByTsDesc_perm _
  · have hndS : (sortByTsDesc (table.filter (matchesFilters f))).Pairwise
        fun a b => a.ts ≠ b.ts :=
      ((sortByTsDesc_perm _).pairwise_iff fun h => Ne.symm h).mpr hnd
    have hnodup : (sortByTsDesc (table.filter (matchesFilters f))).Nodup :=
      hndS.imp fun h => by
        intro e
        exact h (congrArg MemRec.ts e)
    have hflatnodup : ((pagesFrom table f limit fuel none).flatten).Nodup := by
      rw [hflat]
      exact hnodup
    exact (List.nodup_flatten.mp hflatnodup).2

/-- Witness for C3 at a two-record table with distinct timestamps. -/
theorem get_memory_pagination_spec_witness :
    ((pagesFrom [sampleRec "t-001" "x" 100, sampleRec "t-002" "y" 50] {} 1 5 none).flatten).Perm
      (List.filter (matchesFilters {}) [sampleRec "t-001" "x" 100, sampleRec "t-002" "y" 50]) ∧
    (pagesFrom [sampleRec "t-001" "x" 100, sampleRec "t-002" "y" 50] {} 1 5 none).Pairwise
      List.Disjoint :=
  get_memory_pagination_spec [sampleRec "t-001" "x" 100, sampleRec "t-002" "y" 50] {} 1 5
    (by decide) (by decide) (by decide) (by decide)

/-! ### C10 — reflection id -/

theorem str_data_append (a b : String) : (a ++ b).data = a.data ++ b.data := rfl

theorem pyLower_data_length (s : String) : (pyLower s).data.length = s.data.length := by
  simp [pyLower]

theorem eq_empty_of_pyLower_eq {a b : String} (h : pyLower a = pyLower b) (ha : a = "") :
    b = "" := by
  subst ha
  cases b with
  | mk l =>
      have h0 : (pyLower { data := l }).data.length = 0 := by
        rw [← h]
        rfl
      rw [pyLower_data_length] at h0
      cases l with
      | nil => rfl
      | cons c cs => simp at h0

theorem sha256_length (msg : List Nat) : (sha256 msg).length = 32 := by
  simp [sha256, be4]

theorem b64Char_ne_pad (i : Nat) : b64Char i ≠ '=' := by
  by_cases h : i < 64
  · have hall : ∀ j < 64, b64Char j ≠ '=' := by decide
    exact hall i h
  · unfold b64Char
    rw [List.getD_eq_default]
    · decide
    · have hlen : b64Alphabet.length = 64 := by decide
      omega

theorem urlsafe_b64encode_shape : ∀ (k : Nat) (l : List Nat), l.length = 3 * k + 2 →
    ∃ M z, urlsafe_b64encode l = M ++ [z, '='] ∧ z ≠ '=' ∧ M.length = 4 * k + 2 := by
  intro k
  induction k with
  | zero =>
      intro l hl
      match l with
      | [] => simp at hl
      | [b1] => simp at hl
      | b1 :: b2 :: rest =>
          have hrest : rest = [] := by
            cases rest with
            | nil => rfl
            | cons c cs =>
                simp only [List.length_cons] at hl
                omega
          subst hrest
          exact ⟨[b64Char (b1 / 4), b64Char (b1 % 4 * 16 + b2 / 16)],
            b64Char (b2 % 16 * 4), rfl, b64Char_ne_pad _, rfl⟩
  | succ k ih =>
      intro l hl
      match l with
      | [] => simp at hl
      | [b1] => simp at hl
      | [b1, b2] =>
          simp only [List.length_cons, List.length_nil] at hl
          omega
      | b1 :: b2 :: b3 :: rest =>
          have hrest : rest.length = 3 * k + 2 := by
            simp [List.length_cons] at hl
            omega
          obtain ⟨M, z, he, hz, hM⟩ := ih rest hrest
          refine ⟨b64Char (b1 / 4) :: b64Char (b1 % 4 * 16 + b2 / 16) ::
            b64Char (b2 % 16 * 4 + b3 / 64) :: b64Char (b3 % 64) :: M, z, ?_, hz, ?_⟩
          · show urlsafe_b64encode (b1 :: b2 :: b3 :: rest) = _
            rw [urlsafe_b64encode, he]
            simp
          · simp [hM]
            omega

theorem rstripPad_append (M : List Char) (z : Char) (hz : z ≠ '=') :
    rstripPad (M ++ [z, '=']) = M ++ [z] := by
  unfold rstripPad
  have h1 : (M ++ [z, '=']).reverse = '=' :: z :: M.reverse := by
    simp
  rw [h1]
  have hzb : (z == '=') = false := beq_eq_false_iff_ne.mpr hz
  simp [List.dropWhile, hzb]

theorem b64_of_digest_take (bytes32 : List Nat) (h32 : bytes32.length = 32) :
    (rstripPad (urlsafe_b64encode bytes32)).take 16 =
      (urlsafe_b64encode bytes32).take 16 ∧
    ((rstripPad (urlsafe_b64encode bytes32)).take 16).length = 16 := by
  obtain ⟨M, z, he, hz, hM⟩ := urlsafe_b64encode_shape 10 bytes32 (by omega)
  have hstrip : rstripPad (urlsafe_b64encode bytes32) = M ++ [z] := by
    rw [he]
    exact rstripPad_append M z hz
  have h16 : 16 ≤ M.length := by omega
  constructor
  · rw [hstrip, he]
    have e1 : (M ++ [z]).take 16 = M.take 16 := List.take_append_of_le_length h16
    have e2 : (M ++ [z, '=']).take 16 = M.take 16 := List.take_append_of_le_length h16
    rw [e1, e2]
  · rw [hstrip, List.take_append_of_le_length h16, List.length_take]
    omega

/-- C10: `generate_reflection_id` raises exactly on the empty email; on a
non-empty email it returns "GLYPH-" followed by the first 16 characters of
the URL-safe base64 encoding of the SHA-256 digest of the lower-cased
email (the `rstrip("=")` of the code cannot affect the first 16 of the 43
unpadded characters); the result always has length 22; and the function is
case-insensitive in the email (it depends only on the lower-cased form, so
it is deterministic across case variants). -/
theorem generate_reflection_id_spec (e : String) :
    (e = "" → generate_reflection_id e = .error "Email required for lawful reflection ID") ∧
    (e ≠ "" → generate_reflection_id e =
      .ok ("GLYPH-" ++ ⟨(urlsafe_b64encode (sha256 (utf8Bytes (pyLower e)))).take 16⟩)) ∧
    (∀ s, generate_reflection_id e = .ok s → s.length = 22) ∧
    (∀ e2, pyLower e = pyLower e2 →
      generate_reflection_id e = generate_reflection_id e2) := by
  have hcore := b64_of_digest_take (sha256 (utf8Bytes (pyLower e)))
    (sha256_length (utf8Bytes (pyLower e)))
  refine ⟨?_, ?_, ?_, ?_⟩
  · rintro rfl
    rfl
  · intro he
    simp only [generate_reflection_id, if_neg he]
    rw [hcore.1]
  · intro s hs
    by_cases he : e = ""
    · rw [he, show generate_reflection_id "" =
        .error "Email required for lawful reflection ID" from rfl] at hs
      exact Except.noConfusion hs
    · simp only [generate_reflection_id, if_neg he, Except.ok.injEq] at hs
      subst hs
      show ("GLYPH-" ++ _ : String).data.length = 22
      rw [str_data_append]
      simp only [List.length_append]
      have h6 : ("GLYPH-" : String).data.length = 6 := by decide
      have h16 : ((rstripPad (urlsafe_b64encode
          (sha256 (utf8Bytes (pyLower e))))).take 16).length = 16 := hcore.2
      rw [h6]
      show 6 + ((rstripPad (urlsafe_b64encode
          (sha256 (utf8Bytes (pyLower e))))).take 16).length = 22
      omega
  · intro e2 hlow
    by_cases he : e = ""
    · have he2 : e2 = "" := eq_empty_of_pyLower_eq hlow he
      rw [he, he2]
    · have he2 : e2 ≠ "" := fun h => he (eq_empty_of_pyLower_eq hlow.symm h)
      simp only [generate_reflection_id, if_neg he, if_neg he2, hlow]

/-- Witness for C10 at a concrete mixed-case email. -/
theorem generate_reflection_id_spec_witness :
    generate_reflection_id "Test@Example.com" =
      .ok ("GLYPH-" ++
        ⟨(urlsafe_b64encode (sha256 (utf8Bytes (pyLower "Test@Example.com")))).take 16⟩) ∧
    generate_reflection_id "Test@Example.com" =
      generate_reflection_id "test@example.com" :=
  ⟨(generate_reflection_id_spec "Test@Example.com").2.1 (by decide),
   (generate_reflection_id_spec "Test@Example.com").2.2.2 "test@example.com" (by decide)⟩

end DavePMEi
